import Mathlib

/-
Verification of the TOML serializer (src/ser.rs) and the Value model's
serializer bridge (src/value.rs) of the bcl/toml-rs repository.

The emission engine of src/ser.rs is a state machine threading a chain of
"frames" (the `State` enum) through recursive serde calls.  The frames hold
shared mutable cells (`Cell<bool>` / `Cell<Option<&str>>`); we embed the
chain as a `List Frame` and thread every cell mutation explicitly: each
engine operation takes the chain and the output buffer and returns the
updated chain and buffer.  Because the Rust cells are mutated in place, a
caller observes mutations even when the callee returned an error; the
result type `SOut` therefore carries the chain and buffer on the error path
as well.

Arbitrary serde producers are embedded as the free datatype `SValue` of
protocol shapes: scalars, the none marker, sequences, maps (string keys,
extracted through `StringExtractor`), and structs (including the reserved
datetime sentinel struct).  `f64` values are embedded abstractly as the two
observations `serialize_f64` makes of them: the Display rendering and the
result of the `v % 1.0 == 0.0` test (structure `F64`).
-/

namespace Toml

/-- Errors of src/ser.rs `enum Error`.  The extra constructor `Panic` is not
a member of the source enum: it models a Rust `panic!` or a failed
`assert!` (used only on branches unreachable from the public entry). -/
inductive Err where
  | UnsupportedType
  | KeyNotString
  | KeyNewline
  | ArrayMixedType
  | ValueAfterTable
  | DateInvalid
  | UnsupportedNone
  | Custom (msg : String)
  | Panic
deriving DecidableEq, Repr

/-- One level of the engine's `State` chain (src/ser.rs `enum State`).
`State::End` is the empty list.  `table` carries the key under which the
current value is being emitted plus the enclosing table's `first` and
`table_emitted` cells; `array` carries the enclosing sequence's `first`
and resolved element type cells. -/
inductive Frame where
  | table (key : String) (first : Bool) (tableEmitted : Bool)
  | array (first : Bool) (type_ : Option String)
deriving DecidableEq, Repr

/-- Result of an engine operation: the frame chain and output buffer after
all cell mutations performed by the call, plus the error if the call
returned `Err`.  (Rust mutations persist through error returns because the
cells and the buffer are shared by reference.) -/
structure SOut where
  chain : List Frame
  buf : String
  err : Option Err
deriving DecidableEq, Repr

/-- Character class of bare keys, from the match inside `escape_key`:
ASCII letters, digits, `-` and `_`. -/
def isBareChar (c : Char) : Bool :=
  ('a' ≤ c && c ≤ 'z') || ('A' ≤ c && c ≤ 'Z') || ('0' ≤ c && c ≤ '9') ||
    c == '-' || c == '_'

/-- Four-digit zero-padded decimal rendering of a codepoint, the effect of
Rust's `write!(dst, "\u{:04}", ch as u32)` format in `emit_str`. -/
def pad4 (n : Nat) : String :=
  if n < 10 then "000" ++ toString n
  else if n < 100 then "00" ++ toString n
  else if n < 1000 then "0" ++ toString n
  else toString n

/-- One iteration of the character loop of `emit_str`, appending the
(possibly escaped) rendering of `ch` to the buffer.  The arms mirror the
source match in order; the catch-all guard `c < 0x1F` uses a decimal
numeric escape. -/
def escCharApp (dst : String) (ch : Char) : String :=
  if ch = '\x08' then dst ++ "\\b"
  else if ch = '\x09' then dst ++ "\\t"
  else if ch = '\x0a' then dst ++ "\\n"
  else if ch = '\x0c' then dst ++ "\\f"
  else if ch = '\x0d' then dst ++ "\\r"
  else if ch = '\x22' then dst ++ "\\\""
  else if ch = '\x5c' then dst ++ "\\\\"
  else if ch < '\x1f' then dst ++ "\\u" ++ pad4 ch.toNat
  else dst.push ch

/-- `Serializer::emit_str`: open quote, escape each character, close
quote, appended to the buffer. -/
def emitStr (dst : String) (value : String) : String :=
  (value.data.foldl escCharApp (dst ++ "\"")) ++ "\""

/-- `Serializer::escape_key`: a key all of whose characters are in the bare
class is written raw, any other key is written through `emit_str`. -/
def escapeKey (dst : String) (key : String) : String :=
  if key.data.all isBareChar then dst ++ key else emitStr dst key

/-- `Serializer::emit_array`: `[` before the first element, `, ` before
every later one. -/
def emitArray (dst : String) (first : Bool) : String :=
  if first then dst ++ "[" else dst ++ ", "

/-- `Serializer::array_type`: when the current frame is an array, check the
announced element type against the resolved one, resolving it on first
use; in any other frame the check is a no-op. -/
def arrayType (t : String) (st : List Frame) : Except Err (List Frame) :=
  match st with
  | .array f ty :: p =>
    match ty with
    | some prev => if prev ≠ t then .error .ArrayMixedType else .ok (.array f ty :: p)
    | none => .ok (.array f (some t) :: p)
  | _ => .ok st

/-- `Serializer::emit_key_part`: walk the chain toward the root, set every
table frame's `table_emitted` cell, and write the dotted key path (root
key first).  Returns the updated chain, the buffer, and the `first` flag
threaded through the recursion (true while nothing has been written). -/
def emitKeyPart : List Frame → String → (List Frame × String × Bool)
  | [], dst => ([], dst, true)
  | .array f ty :: p, dst =>
    let (p', dst', fst) := emitKeyPart p dst
    (.array f ty :: p', dst', fst)
  | .table k f _ :: p, dst =>
    let (p', dst', fst) := emitKeyPart p dst
    let dst'' := if fst then dst' else dst' ++ "."
    (.table k f true :: p', escapeKey dst'' k, false)

/-- `Serializer::emit_table_header`: nothing at the root; otherwise a
`[path]` or `[[path]]` header, preceded by a blank line when the nearest
enclosing table (directly, or through one array level) has already
emitted a field. -/
def emitTableHeader (st : List Frame) (dst : String) : List Frame × String :=
  match st with
  | [] => ([], dst)
  | _ =>
    let aot := match st with | .array _ _ :: _ => true | _ => false
    let dst := match st with
      | .table _ f _ :: _ => if !f then dst ++ "\n" else dst
      | .array _ _ :: .table _ f _ :: _ => if !f then dst ++ "\n" else dst
      | _ => dst
    let dst := dst ++ "["
    let dst := if aot then dst ++ "[" else dst
    let (st', dst, _) := emitKeyPart st dst
    let dst := if aot then dst ++ "]" else dst
    (st', dst ++ "]\n")

/-- `Serializer::emit_key_` on the cloned state: array frames assert a
resolved type and write the element separator (recursing to the parent
only before the first element); table frames reject a started table with
`ValueAfterTable`, write the ancestor headers before the table's first
field, and then write `key = `. -/
def emitKeyAux : List Frame → String → SOut
  | [], dst => ⟨[], dst, none⟩
  | .array f ty :: p, dst =>
    if ty.isNone then ⟨.array f ty :: p, dst, some .Panic⟩
    else
      match (if f then emitKeyAux p dst else ⟨p, dst, none⟩) with
      | ⟨p', dst', some e⟩ => ⟨.array f ty :: p', dst', some e⟩
      | ⟨p', dst', none⟩ => ⟨.array f ty :: p', emitArray dst' f, none⟩
  | .table k f te :: p, dst =>
    if te then ⟨.table k f te :: p, dst, some .ValueAfterTable⟩
    else
      let (p', dst') := if f then emitTableHeader p dst else (p, dst)
      ⟨.table k false te :: p', escapeKey dst' k ++ " = ", none⟩

/-- `Serializer::emit_key`: the array type check followed by `emit_key_`. -/
def emitKey (t : String) (st : List Frame) (dst : String) : SOut :=
  match arrayType t st with
  | .error e => ⟨st, dst, some e⟩
  | .ok st' => emitKeyAux st' dst

/-- `Serializer::display`: emit the key, write the token, and terminate the
line when the current frame is a table. -/
def display (tok : String) (t : String) (st : List Frame) (dst : String) : SOut :=
  match emitKey t st dst with
  | ⟨st', dst', some e⟩ => ⟨st', dst', some e⟩
  | ⟨st', dst', none⟩ =>
    let dst := dst' ++ tok
    let dst := match st' with | .table _ _ _ :: _ => dst ++ "\n" | _ => dst
    ⟨st', dst, none⟩

/-- An IEEE-754 double, embedded abstractly as the only two observations
`serialize_f64` makes of it: the rendering produced by Rust's default
Display formatting, and the result of the `v % 1.0 == 0.0` test (true
exactly when the value is integral; false for NaN and the infinities). -/
structure F64 where
  disp : String
  fracZero : Bool
deriving DecidableEq, Repr

/-- Modelled from the spec: the reserved name of the sentinel datetime
aggregate (`SERDE_STRUCT_NAME`, declared in the datetime module, which is
outside src/; the spec treats it as an opaque reserved name). -/
def SERDE_STRUCT_NAME : String := "$__toml_private_Datetime"

/-- Modelled from the spec: the reserved field name inside the sentinel
datetime aggregate (`SERDE_STRUCT_FIELD_NAME`, declared in the datetime
module, which is outside src/). -/
def SERDE_STRUCT_FIELD_NAME : String := "$__toml_private_datetime"

mutual
/-- A producer-protocol shape: the sequence of serde `Serializer` calls a
deterministic producer can drive the engine with.  Scalars, the none
marker, sequences (`serialize_seq` + elements + end), maps
(`serialize_map` + key/value pairs + end, keys extracted through
`StringExtractor`), and structs (`serialize_struct`, either the reserved
datetime sentinel or an ordinary table). -/
inductive SValue where
  | SBool (b : Bool)
  | SInt (n : Int)
  | SFloat (f : F64)
  | SStr (s : String)
  | SNone
  | SSeq (es : SList)
  | SMap (fs : SFields)
  | SStruct (name : String) (fs : SFields)
/-- Elements of an embedded sequence. -/
inductive SList where
  | nil
  | cons (v : SValue) (tl : SList)
/-- Key/value fields of an embedded map or struct, in emission order. -/
inductive SFields where
  | nil
  | cons (key : String) (v : SValue) (tl : SFields)
end

/-- Loop state of `SerializeSeq`: the `first` and resolved-type cells, the
parent chain and buffer, and the propagated error if an element failed. -/
structure SeqSt where
  first : Bool
  type_ : Option String
  chain : List Frame
  buf : String
  err : Option Err
deriving DecidableEq, Repr

/-- Loop state of `SerializeTable::Table`: the `first` and `table_emitted`
cells, the parent chain and buffer, and the propagated error. -/
structure TabSt where
  first : Bool
  tableEmitted : Bool
  chain : List Frame
  buf : String
  err : Option Err
deriving DecidableEq, Repr

/-- `SerializeSeq::end`: a table-typed sequence closes nothing, any other
resolved type closes the bracket, and an unresolved type (no elements)
emits the key and a literal `[]`; the latter two add the line terminator
inside a table. -/
def seqEnd (first : Bool) (ty : Option String) (st : List Frame) (dst : String) : SOut :=
  match ty with
  | some t =>
    if t = "table" then ⟨st, dst, none⟩
    else
      let dst := dst ++ "]"
      let dst := match st with | .table _ _ _ :: _ => dst ++ "\n" | _ => dst
      ⟨st, dst, none⟩
  | none =>
    if !first then ⟨st, dst, some .Panic⟩
    else
      match emitKey "array" st dst with
      | ⟨st', dst', some e⟩ => ⟨st', dst', some e⟩
      | ⟨st', dst', none⟩ =>
        let dst := dst' ++ "[]"
        let dst := match st' with | .table _ _ _ :: _ => dst ++ "\n" | _ => dst
        ⟨st', dst, none⟩

/-- `DateStrEmitter`: inside the sentinel datetime aggregate only a string
scalar is accepted, written as a bare token through `display`; every
other shape in the embedded protocol is `DateInvalid`. -/
def dateStrEmit : SValue → List Frame → String → SOut
  | .SStr v, st, dst => display v "datetime" st dst
  | _, st, dst => ⟨st, dst, some .DateInvalid⟩

mutual

/-- The emission engine: `impl ser::Serializer for &mut Serializer` of
src/ser.rs, one case per protocol call of the embedded shape. -/
def serialize : SValue → List Frame → String → SOut
  | .SBool b, st, dst => display (if b then "true" else "false") "bool" st dst
  | .SInt n, st, dst => display (toString n) "integer" st dst
  | .SFloat f, st, dst =>
    match emitKey "float" st dst with
    | ⟨st', dst', some e⟩ => ⟨st', dst', some e⟩
    | ⟨st', dst', none⟩ =>
      let dst := dst' ++ f.disp
      let dst := if f.fracZero then dst ++ ".0" else dst
      let dst := match st' with | .table _ _ _ :: _ => dst ++ "\n" | _ => dst
      ⟨st', dst, none⟩
  | .SStr s, st, dst =>
    match emitKey "string" st dst with
    | ⟨st', dst', some e⟩ => ⟨st', dst', some e⟩
    | ⟨st', dst', none⟩ =>
      let dst := emitStr dst' s
      let dst := match st' with | .table _ _ _ :: _ => dst ++ "\n" | _ => dst
      ⟨st', dst, none⟩
  | .SNone, st, dst => ⟨st, dst, some .UnsupportedNone⟩
  | .SSeq es, st, dst =>
    match arrayType "array" st with
    | .error e => ⟨st, dst, some e⟩
    | .ok st' =>
      let r := serSeqElems es true none st' dst
      match r.err with
      | some e => ⟨r.chain, r.buf, some e⟩
      | none => seqEnd r.first r.type_ r.chain r.buf
  | .SMap fs, st, dst =>
    match arrayType "table" st with
    | .error e => ⟨st, dst, some e⟩
    | .ok st' =>
      let r := serMapFields fs true false st' dst
      match r.err with
      | some e => ⟨r.chain, r.buf, some e⟩
      | none =>
        if r.first then
          let (st'', dst'') := emitTableHeader r.chain r.buf
          ⟨st'', dst'', none⟩
        else ⟨r.chain, r.buf, none⟩
  | .SStruct name fs, st, dst =>
    if name = SERDE_STRUCT_NAME then
      match arrayType "datetime" st with
      | .error e => ⟨st, dst, some e⟩
      | .ok st' => serDateFields fs st' dst
    else
      match arrayType "table" st with
      | .error e => ⟨st, dst, some e⟩
      | .ok st' =>
        let r := serStructFields fs true false st' dst
        ⟨r.chain, r.buf, r.err⟩

/-- The `SerializeSeq::serialize_element` loop: each element is serialized
under a fresh array frame built from the loop's cells; `first` is cleared
after a successful element; errors stop the loop and propagate. -/
def serSeqElems : SList → Bool → Option String → List Frame → String → SeqSt
  | .nil, f, ty, st, dst => ⟨f, ty, st, dst, none⟩
  | .cons v tl, f, ty, st, dst =>
    match serialize v (.array f ty :: st) dst with
    | ⟨.array _ ty' :: st', dst', none⟩ => serSeqElems tl false ty' st' dst'
    | ⟨.array f' ty' :: st', dst', some e⟩ => ⟨f', ty', st', dst', some e⟩
    | ⟨st', dst', _⟩ => ⟨f, ty, st', dst', some .Panic⟩

/-- The `SerializeMap` field loop (`serialize_key` through
`StringExtractor`, which rejects keys containing a newline, followed by
`serialize_value`): each value is serialized under a fresh table frame
built from the loop's cells; `first` is cleared after a successful field;
an `UnsupportedNone` failure drops the field and continues with the cells
as the failed call left them; any other error propagates. -/
def serMapFields : SFields → Bool → Bool → List Frame → String → TabSt
  | .nil, f, te, st, dst => ⟨f, te, st, dst, none⟩
  | .cons k v tl, f, te, st, dst =>
    if k.data.contains '\n' then ⟨f, te, st, dst, some .KeyNewline⟩
    else
      match serialize v (.table k f te :: st) dst with
      | ⟨.table _ _ te' :: st', dst', none⟩ => serMapFields tl false te' st' dst'
      | ⟨.table _ f' te' :: st', dst', some .UnsupportedNone⟩ => serMapFields tl f' te' st' dst'
      | ⟨.table _ f' te' :: st', dst', some e⟩ => ⟨f', te', st', dst', some e⟩
      | ⟨st', dst', _⟩ => ⟨f, te, st', dst', some .Panic⟩

/-- The `SerializeStruct::serialize_field` loop for an ordinary (non
sentinel) struct: like the map loop but the statically-known field names
bypass `StringExtractor`, so there is no newline check. -/
def serStructFields : SFields → Bool → Bool → List Frame → String → TabSt
  | .nil, f, te, st, dst => ⟨f, te, st, dst, none⟩
  | .cons k v tl, f, te, st, dst =>
    match serialize v (.table k f te :: st) dst with
    | ⟨.table _ _ te' :: st', dst', none⟩ => serStructFields tl false te' st' dst'
    | ⟨.table _ f' te' :: st', dst', some .UnsupportedNone⟩ => serStructFields tl f' te' st' dst'
    | ⟨.table _ f' te' :: st', dst', some e⟩ => ⟨f', te', st', dst', some e⟩
    | ⟨st', dst', _⟩ => ⟨f, te, st', dst', some .Panic⟩

/-- The `SerializeStruct::serialize_field` loop in datetime-sentinel mode:
a field named with the reserved name is written through `DateStrEmitter`,
any other field name is `DateInvalid`. -/
def serDateFields : SFields → List Frame → String → SOut
  | .nil, st, dst => ⟨st, dst, none⟩
  | .cons k v tl, st, dst =>
    if k = SERDE_STRUCT_FIELD_NAME then
      match dateStrEmit v st dst with
      | ⟨st', dst', none⟩ => serDateFields tl st' dst'
      | ⟨st', dst', some e⟩ => ⟨st', dst', some e⟩
    else ⟨st, dst, some .DateInvalid⟩

end

/-- `ser::to_string`: run the engine from the `End` state on an empty
buffer; return the buffer on success and the error otherwise. -/
def to_string (v : SValue) : Except Err String :=
  match serialize v [] "" with
  | ⟨_, dst, none⟩ => .ok dst
  | ⟨_, _, some e⟩ => .error e

/-- The resolved type tag each shape announces through `array_type` when
it starts serializing (the none marker announces nothing: `serialize_none`
fails before any type check). -/
def tagOf : SValue → Option String
  | .SBool _ => some "bool"
  | .SInt _ => some "integer"
  | .SFloat _ => some "float"
  | .SStr _ => some "string"
  | .SNone => none
  | .SSeq _ => some "array"
  | .SMap _ => some "table"
  | .SStruct n _ => some (if n = SERDE_STRUCT_NAME then "datetime" else "table")

/-- Scalar protocol shapes (emitted through a single `display`-style call). -/
def isScalar : SValue → Bool
  | .SBool _ => true
  | .SInt _ => true
  | .SFloat _ => true
  | .SStr _ => true
  | _ => false

/-- String protocol shapes. -/
def isStr : SValue → Bool
  | .SStr _ => true
  | _ => false

/-- Appending sequences of protocol elements. -/
def SList.append : SList → SList → SList
  | .nil, ys => ys
  | .cons x tl, ys => .cons x (tl.append ys)

/-- The elements of an embedded sequence as a Lean list. -/
def SList.toList : SList → List SValue
  | .nil => []
  | .cons v tl => v :: tl.toList

mutual
/-- The Value model of src/value.rs: the closed tagged union.  A table is
carried as its key-sorted field list (the iteration order of the
`BTreeMap`); a datetime is carried as its rendered text, the only datum
its serialization uses. -/
inductive Value where
  | VString (s : String)
  | VInteger (n : Int)
  | VFloat (f : F64)
  | VBoolean (b : Bool)
  | VDatetime (render : String)
  | VArray (es : VList)
  | VTable (fs : VFields)
/-- Elements of a Value array. -/
inductive VList where
  | nil
  | cons (v : Value) (tl : VList)
/-- Fields of a Value table, in the key-sorted iteration order. -/
inductive VFields where
  | nil
  | cons (key : String) (v : Value) (tl : VFields)
end

/-- Sequence shapes among translated Values (exactly the images of
`Value::Array`, so filtering by this matches the source's `is_array`). -/
def isArrS : SValue → Bool
  | .SSeq _ => true
  | _ => false

/-- Map shapes among translated Values (exactly the images of
`Value::Table`, so filtering by this matches the source's `is_table`). -/
def isTabS : SValue → Bool
  | .SMap _ => true
  | _ => false

/-- Filtering a field list by a predicate on the field value. -/
def SFields.filterV (p : SValue → Bool) : SFields → SFields
  | .nil => .nil
  | .cons k v tl => if p v then .cons k v (tl.filterV p) else tl.filterV p

/-- Appending field lists. -/
def SFields.appendF : SFields → SFields → SFields
  | .nil, ys => ys
  | .cons k v tl, ys => .cons k v (tl.appendF ys)

/-- The three-pass field order of `impl ser::Serialize for Value`: first
the fields that are neither arrays nor tables, then the array fields
(including arrays of tables), then the table fields. -/
def threePass (fs : SFields) : SFields :=
  ((fs.filterV (fun v => !isArrS v && !isTabS v)).appendF
    ((fs.filterV isArrS).appendF (fs.filterV isTabS)))

mutual
/-- The Value-to-protocol bridge, `impl ser::Serialize for Value`: scalars
map to the matching protocol scalar; a datetime serializes (modelled from
the spec, as the datetime module is outside src/) as the sentinel struct
with its rendered text in the reserved field; an array serializes its
elements in order; a table serializes its fields in the three-pass order.
The source filters fields with `Value::is_array` / `Value::is_table`
before serializing each one; here the fields are translated first and
filtered by the corresponding translated shape, which agrees because
`Value::Array` and `Value::Table` are precisely the values translated to
`SSeq` and `SMap`. -/
def Value.toS : Value → SValue
  | .VString s => .SStr s
  | .VInteger n => .SInt n
  | .VFloat f => .SFloat f
  | .VBoolean b => .SBool b
  | .VDatetime d => .SStruct SERDE_STRUCT_NAME (.cons SERDE_STRUCT_FIELD_NAME (.SStr d) .nil)
  | .VArray es => .SSeq es.toS
  | .VTable fs => .SMap (threePass fs.toS)
/-- Elementwise translation of a Value array. -/
def VList.toS : VList → SList
  | .nil => .nil
  | .cons v tl => .cons v.toS tl.toS
/-- Fieldwise translation of a Value table (key order preserved). -/
def VFields.toS : VFields → SFields
  | .nil => .nil
  | .cons k v tl => .cons k v.toS tl.toS
end

/-- Claim-side rendering of the string escape rules as §4.2 words them:
the seven named escapes, a numeric escape for every other control
character below 0x1F, and everything else (including non-ASCII) verbatim. -/
def specEscapeChar (c : Char) : String :=
  if c = '\x08' then "\\b"
  else if c = '\x09' then "\\t"
  else if c = '\x0a' then "\\n"
  else if c = '\x0c' then "\\f"
  else if c = '\x0d' then "\\r"
  else if c = '\x22' then "\\\""
  else if c = '\x5c' then "\\\\"
  else if c < '\x1f' then "\\u" ++ pad4 c.toNat
  else String.singleton c

/-- Claim-side bare-key predicate as the claim words it: the key matches
one-or-more characters of the class, i.e. it is nonempty and every
character is in the class. -/
def specBareKey (k : String) : Bool :=
  !k.data.isEmpty && k.data.all isBareChar

/-- Claim-side rendering of a whole string body: each character escaped
per the claim's escape table, concatenated in order. -/
def specEscapeStr : List Char → String
  | [] => ""
  | c :: tl => specEscapeChar c ++ specEscapeStr tl

instance : DecidableEq (Except Err String) := fun a b =>
  match a, b with
  | .ok x, .ok y =>
    if h : x = y then .isTrue (by rw [h]) else .isFalse (fun hh => by cases hh; exact h rfl)
  | .error x, .error y =>
    if h : x = y then .isTrue (by rw [h]) else .isFalse (fun hh => by cases hh; exact h rfl)
  | .ok _, .error _ => .isFalse (fun hh => by cases hh)
  | .error _, .ok _ => .isFalse (fun hh => by cases hh)

/-- Frame-chain evolution invariant: during any engine operation the chain
keeps its shape and its table keys; table flags may change freely, array
frames keep their `first` flag, and an array frame's resolved type can
only be filled in (never changed once set).  This captures exactly what
the cell mutations of src/ser.rs can do to an existing chain. -/
def FR : List Frame → List Frame → Prop
  | [], [] => True
  | .table k _ _ :: c, .table k' _ _ :: c' => k = k' ∧ FR c c'
  | .array f ty :: c, .array f' ty' :: c' => f = f' ∧ (ty = ty' ∨ ty = none) ∧ FR c c'
  | _, _ => False

/-! ### Theorems -/

/-- CLAIM C2 (status code_bug): the claim states that the three-pass field
order of the Value bridge makes ValueAfterTable unreachable for any
Value-sourced table.  It is reachable: pass 2 emits all array fields,
including arrays of tables, in key order, and emitting an array of tables
writes a `[[...]]` header that sets the enclosing table's `table_emitted`
flag, so a later plain array sibling in the same pass is rejected.  On
`Table{"a": Array[Table{}], "b": Array[]}` the code returns
`Err(ValueAfterTable)`. -/
theorem c2_value_after_table_reachable :
    to_string (Value.toS (.VTable (.cons "a" (.VArray (.cons (.VTable .nil) .nil))
      (.cons "b" (.VArray .nil) .nil)))) = .error .ValueAfterTable := by decide

/-- CLAIM C5 counterexample: serializing
`Table{"a": Integer(1), "b": Table{"c": Integer(2)}}` does not produce the
claimed text `a = 1\n[b]\nc = 2\n`: `emit_table_header` writes a blank
line before `[b]` because the enclosing table's `first` flag was already
cleared by the field `a`. -/
theorem c5_claimed_text_wrong :
    to_string (Value.toS (.VTable (.cons "a" (.VInteger 1)
      (.cons "b" (.VTable (.cons "c" (.VInteger 2) .nil)) .nil)))) ≠
      .ok "a = 1\n[b]\nc = 2\n" := by decide

/-- CLAIM C5 (status corrected): serializing
`Table{"a": Integer(1), "b": Table{"c": Integer(2)}}` produces exactly
`a = 1\n\n[b]\nc = 2\n` (a blank line separates the `a` line from the
`[b]` header). -/
theorem c5_nested_table_text :
    to_string (Value.toS (.VTable (.cons "a" (.VInteger 1)
      (.cons "b" (.VTable (.cons "c" (.VInteger 2) .nil)) .nil)))) =
      .ok "a = 1\n\n[b]\nc = 2\n" := by decide

/-- CLAIM C4 counterexample: a bare scalar at the document root does not
fail with UnsupportedType (with the `End` state `emit_key_` returns Ok and
the scalar token is written, so `to_string(1)` succeeds with `"1"`), and
the top-level `Array[Integer(1), String("a")]` fails with ArrayMixedType,
not UnsupportedType. -/
theorem c4_root_scalar_not_unsupported :
    to_string (Value.toS (.VInteger 1)) = .ok "1" ∧
    to_string (Value.toS (.VInteger 1)) ≠ .error .UnsupportedType ∧
    to_string (Value.toS (.VArray (.cons (.VInteger 1) (.cons (.VString "a") .nil)))) =
      .error .ArrayMixedType ∧
    Err.ArrayMixedType ≠ Err.UnsupportedType := by
  refine ⟨by decide, by decide, by decide, by decide⟩

/-- CLAIM C4 (status corrected): serializing a bare scalar at the document
root succeeds and yields the scalar's rendered token with no trailing
newline — for every boolean, integer, float, string and datetime scalar
(the token being `true`/`false`, the decimal integer, the float rendering
with its conditional `.0`, the quoted escaped string, and the bare
datetime text respectively); the top-level value
`Array[Integer(1), String("a")]` fails with ArrayMixedType; empty
top-level content (an empty table) succeeds and yields an empty
document. -/
theorem c4_root_emission :
    (∀ b : Bool, to_string (Value.toS (.VBoolean b)) =
      .ok (if b then "true" else "false")) ∧
    (∀ n : Int, to_string (Value.toS (.VInteger n)) = .ok (toString n)) ∧
    (∀ fl : F64, to_string (Value.toS (.VFloat fl)) =
      .ok (fl.disp ++ (if fl.fracZero then ".0" else ""))) ∧
    (∀ s : String, to_string (Value.toS (.VString s)) = .ok (emitStr "" s)) ∧
    (∀ d : String, to_string (Value.toS (.VDatetime d)) = .ok d) ∧
    to_string (Value.toS (.VArray (.cons (.VInteger 1) (.cons (.VString "a") .nil)))) =
      .error .ArrayMixedType ∧
    to_string (Value.toS (.VTable .nil)) = .ok "" := by
  refine ⟨fun b => rfl, fun n => rfl, ?_, fun s => rfl, fun d => rfl, by decide, by decide⟩
  intro fl
  obtain ⟨d, z⟩ := fl
  cases z
  · simp [to_string, serialize, emitKey, arrayType, emitKeyAux, Value.toS,
      String.empty_append, String.append_empty]
  · rfl

/-- CLAIM C1 counterexample: an array-of-tables field emitted after a
sibling table in the same table does not fail with ValueAfterTable: the
producer `Map{"a": Map{}, "b": Seq[Map{}]}` serializes successfully (the
element table's header is written through `emit_table_header`, which never
consults the flag). -/
theorem c1_array_of_tables_exempt :
    to_string (.SMap (.cons "a" (.SMap .nil)
      (.cons "b" (.SSeq (.cons (.SMap .nil) .nil)) .nil))) = .ok "[a]\n\n[[b]]\n" ∧
    to_string (.SMap (.cons "a" (.SMap .nil)
      (.cons "b" (.SSeq (.cons (.SMap .nil) .nil)) .nil))) ≠ .error .ValueAfterTable := by
  refine ⟨by decide, by decide⟩

/-- CLAIM C1 (status corrected): once a table frame's `table_emitted` flag
is set, emitting a further scalar field, an empty array field, or an array
field whose first element is a scalar or an empty array, fails with
ValueAfterTable; an array field whose first element is a table is exempt
(its `[[...]]` headers are emitted without consulting the flag). -/
theorem c1_value_after_table_blocks (k : String) (f : Bool) (c : List Frame)
    (dst : String) (v : SValue)
    (h : isScalar v = true ∨ v = .SSeq .nil ∨
      (∃ w tl, isScalar w = true ∧ v = .SSeq (.cons w tl)) ∨
      (∃ tl, v = .SSeq (.cons (.SSeq .nil) tl))) :
    (serialize v (.table k f true :: c) dst).err = some .ValueAfterTable := by
  rcases h with h | h | ⟨w, tl, hw, h⟩ | ⟨tl, h⟩
  · cases v <;> simp [isScalar] at h <;>
      simp [serialize, display, emitKey, arrayType, emitKeyAux]
  · subst h
    simp [serialize, arrayType, serSeqElems, seqEnd, emitKey, emitKeyAux]
  · subst h
    cases w <;> simp [isScalar] at hw <;>
      simp [serialize, display, serSeqElems, seqEnd, emitKey, arrayType, emitKeyAux]
  · subst h
    simp [serialize, display, serSeqElems, seqEnd, emitKey, arrayType, emitKeyAux]

/-- CLAIM C1 witness: a concrete instance of the blocking rule, an integer
scalar under a started table frame. -/
theorem c1_value_after_table_blocks_witness :
    (serialize (.SInt 5) (.table "x" true true :: []) "").err = some .ValueAfterTable :=
  c1_value_after_table_blocks "x" true [] "" (.SInt 5) (Or.inl rfl)

/-- CLAIM C10 counterexample: a sentinel datetime aggregate that emits
zero fields is not `exactly one string-valued reserved field`, yet it does
not fail with DateInvalid: it serializes successfully, emitting nothing
(`SerializeStruct::end` is `Ok(())` in datetime mode). -/
theorem c10_empty_sentinel_ok :
    to_string (.SStruct SERDE_STRUCT_NAME .nil) = .ok "" ∧
    to_string (.SStruct SERDE_STRUCT_NAME .nil) ≠ .error .DateInvalid := by
  refine ⟨by decide, by decide⟩

/-- CLAIM C10 (status corrected): inside the sentinel datetime aggregate
the fields are checked one at a time: a field whose name differs from the
reserved field name fails with DateInvalid, a reserved-named field whose
value is not a string scalar fails with DateInvalid, and a reserved-named
string field emits the string as a bare token (at the root the document is
exactly that token); an aggregate emitting zero fields succeeds without
output. -/
theorem c10_sentinel_field_rules :
    (∀ (k : String) (v : SValue) (tl : SFields) (st : List Frame) (dst : String),
      k ≠ SERDE_STRUCT_FIELD_NAME →
      serDateFields (.cons k v tl) st dst = ⟨st, dst, some .DateInvalid⟩) ∧
    (∀ (v : SValue) (tl : SFields) (st : List Frame) (dst : String),
      isStr v = false →
      serDateFields (.cons SERDE_STRUCT_FIELD_NAME v tl) st dst =
        ⟨st, dst, some .DateInvalid⟩) ∧
    (∀ d : String,
      to_string (.SStruct SERDE_STRUCT_NAME
        (.cons SERDE_STRUCT_FIELD_NAME (.SStr d) .nil)) = .ok d) := by
  refine ⟨?_, ?_, fun d => rfl⟩
  · intro k v tl st dst hk
    simp [serDateFields, hk]
  · intro v tl st dst hv
    cases v <;> simp [isStr] at hv <;> simp [serDateFields, dateStrEmit]

/-- CLAIM C10 witness: concrete instances of the two failing field rules,
a wrong-named string field and a reserved-named integer field. -/
theorem c10_sentinel_field_rules_witness :
    serDateFields (.cons "x" (.SStr "d") .nil) [] "" = ⟨[], "", some .DateInvalid⟩ ∧
    serDateFields (.cons SERDE_STRUCT_FIELD_NAME (.SInt 1) .nil) [] "" =
      ⟨[], "", some .DateInvalid⟩ :=
  ⟨c10_sentinel_field_rules.1 "x" (.SStr "d") .nil [] "" (by decide),
   c10_sentinel_field_rules.2.1 (.SInt 1) .nil [] "" rfl⟩

/-- CLAIM C9 (status confirmed): the none marker fails with
UnsupportedNone wherever `serialize_none` is reached, in particular at the
top level and as a sequence element (where the error propagates out of the
element loop); but when it is the value of an ordinary table field, the
field loop catches exactly UnsupportedNone, drops the field, and continues
without error. -/
theorem c9_none_handling :
    (∀ (st : List Frame) (dst : String),
      serialize .SNone st dst = ⟨st, dst, some .UnsupportedNone⟩) ∧
    (∀ (tl : SList) (f : Bool) (ty : Option String) (st : List Frame) (dst : String),
      serSeqElems (.cons .SNone tl) f ty st dst = ⟨f, ty, st, dst, some .UnsupportedNone⟩) ∧
    (∀ (k : String) (tl : SFields) (f te : Bool) (st : List Frame) (dst : String),
      k.data.contains '\n' = false →
      serMapFields (.cons k .SNone tl) f te st dst = serMapFields tl f te st dst) ∧
    to_string (.SMap (.cons "a" .SNone (.cons "b" (.SInt 1) .nil))) = .ok "b = 1\n" ∧
    to_string .SNone = .error .UnsupportedNone := by
  refine ⟨fun st dst => rfl, fun tl f ty st dst => rfl, ?_, by decide, by decide⟩
  intro k tl f te st dst h
  simp only [serMapFields, h, serialize]
  simp

/-- CLAIM C9 witness: a concrete dropped field, the none marker under key
`a` at the root. -/
theorem c9_none_handling_witness :
    serMapFields (.cons "a" .SNone .nil) true false [] "" =
      serMapFields .nil true false [] "" :=
  c9_none_handling.2.2.1 "a" .nil true false [] "" (by decide)

/-- CLAIM C6 counterexample: the empty key does not match `[A-Za-z0-9_-]+`
(one or more characters), yet `escape_key` writes it bare (the `all`
test is vacuously true on an empty key), so `Table{"": Integer(1)}`
serializes to ` = 1\n` rather than to a quoted `"" = 1\n`. -/
theorem c6_empty_key_bare :
    to_string (Value.toS (.VTable (.cons "" (.VInteger 1) .nil))) = .ok " = 1\n" ∧
    specBareKey "" = false ∧
    (" = 1\n" : String) ≠ "\"\" = 1\n" := by
  refine ⟨by decide, by decide, by decide⟩

/-- CLAIM C6 (status corrected): a table key is written bare exactly when
every one of its characters is in the class `[A-Za-z0-9_-]` (so the empty
key, which the claim's `+` excludes, is also written bare, as an empty
token); any other key is written as a quoted string through the string
escape table.  Stated end to end: a one-field table renders its key
through `escape_key`. -/
theorem c6_bare_key_rule (k : String) (n : Int)
    (h : k.data.contains '\n' = false) :
    to_string (Value.toS (.VTable (.cons k (.VInteger n) .nil))) =
      .ok (escapeKey "" k ++ " = " ++ toString n ++ "\n") := by
  simp only [Value.toS, VFields.toS, threePass, SFields.filterV, SFields.appendF,
    isArrS, isTabS, Bool.not_false, Bool.not_true, Bool.and_self]
  simp only [to_string, serialize, arrayType, serMapFields, h, display, emitKey,
    emitKeyAux, emitTableHeader]
  simp [String.append_assoc]

/-- CLAIM C6 witness: the key `a b` contains a space, so it is quoted:
`Table{"a b": Integer(1)}` serializes to `"a b" = 1\n`. -/
theorem c6_bare_key_rule_witness :
    to_string (Value.toS (.VTable (.cons "a b" (.VInteger 1) .nil))) =
      .ok "\"a b\" = 1\n" := by
  rw [c6_bare_key_rule "a b" 1 (by decide)]
  decide

/-- Each step of the `emit_str` character loop appends exactly the escape
sequence the spec's escape table assigns to that character. -/
theorem escCharApp_eq (dst : String) (c : Char) :
    escCharApp dst c = dst ++ specEscapeChar c := by
  simp only [escCharApp, specEscapeChar]
  split_ifs <;> first | rfl | rw [String.append_assoc]

/-- The `emit_str` character loop appends the concatenation of the
per-character escapes. -/
theorem escape_fold_eq (cs : List Char) :
    ∀ dst : String, cs.foldl escCharApp dst = dst ++ specEscapeStr cs := by
  induction cs with
  | nil => intro dst; simp [specEscapeStr]
  | cons c tl ih =>
    intro dst
    simp [List.foldl_cons, escCharApp_eq, ih, specEscapeStr, String.append_assoc]

/-- CLAIM C7 (status confirmed): every emitted string value is
double-quoted, with each character of `{\b,\t,\n,\f,\r,",\\}` escaped,
every remaining control character below 0x1F written via a numeric
escape, and every other character (including non-ASCII) passed through
verbatim — `emit_str` appends exactly the quote-wrapped concatenation of
the spec's per-character escapes, and a root-level string document is
exactly that quoted form. -/
theorem c7_string_escaping :
    (∀ value dst : String,
      emitStr dst value = dst ++ "\"" ++ specEscapeStr value.data ++ "\"") ∧
    (∀ value : String,
      to_string (.SStr value) = .ok ("\"" ++ specEscapeStr value.data ++ "\"")) := by
  constructor
  · intro value dst
    simp [emitStr, escape_fold_eq, String.append_assoc]
  · intro value
    simp [to_string, serialize, emitKey, arrayType, emitKeyAux, emitStr,
      escape_fold_eq, String.append_assoc, String.empty_append]

/-- CLAIM C8 (status confirmed): a float value renders through the default
Display formatting with `.0` appended exactly when the `v % 1.0 == 0.0`
test holds (the integral case), and without it otherwise; in particular
`Table{"n": Float(4.0)}` serializes to `n = 4.0\n` (the double 4.0
displays as `4` and is integral). -/
theorem c8_float_rendering :
    (∀ f : F64,
      to_string (Value.toS (.VTable (.cons "n" (.VFloat f) .nil))) =
        .ok ("n = " ++ f.disp ++ (if f.fracZero then ".0" else "") ++ "\n")) ∧
    to_string (Value.toS (.VTable (.cons "n" (.VFloat ⟨"4", true⟩) .nil))) =
      .ok "n = 4.0\n" := by
  constructor
  · intro f
    obtain ⟨d, z⟩ := f
    have hn : ("n" : String).data.contains '\n' = false := by decide
    have hk : escapeKey "" "n" = "n" := by decide
    cases z <;>
      simp only [Value.toS, VFields.toS, threePass, SFields.filterV, SFields.appendF,
        isArrS, isTabS, Bool.not_false, Bool.not_true, Bool.and_self, to_string,
        serialize, arrayType, serMapFields, hn, display, emitKey, emitKeyAux,
        emitTableHeader] <;>
      simp [hk, String.append_assoc, String.empty_append]
  · decide

/-- The chain-evolution relation is reflexive. -/
theorem FR_refl : ∀ c : List Frame, FR c c
  | [] => trivial
  | .table _ _ _ :: c => ⟨rfl, FR_refl c⟩
  | .array _ _ :: c => ⟨rfl, Or.inl rfl, FR_refl c⟩

/-- The chain-evolution relation is transitive. -/
theorem FR_trans : ∀ (a b c : List Frame), FR a b → FR b c → FR a c := by
  intro a
  induction a with
  | nil =>
    intro b c h1 h2
    rcases b with _ | ⟨fb, b⟩
    · rcases c with _ | ⟨fc, c⟩
      · trivial
      · exact False.elim h2
    · exact False.elim h1
  | cons fa a ih =>
    intro b c h1 h2
    rcases b with _ | ⟨fb, b⟩
    · exact False.elim (by rcases fa with _ | _ <;> exact h1)
    · rcases c with _ | ⟨fc, c⟩
      · exact False.elim (by rcases fb with _ | _ <;> exact h2)
      · rcases fa with ⟨k1, f1, t1⟩ | ⟨f1, y1⟩ <;> rcases fb with ⟨k2, f2, t2⟩ | ⟨f2, y2⟩ <;>
          rcases fc with ⟨k3, f3, t3⟩ | ⟨f3, y3⟩
        · exact ⟨h1.1.trans h2.1, ih b c h1.2 h2.2⟩
        · exact False.elim h2
        · exact False.elim h1
        · exact False.elim h1
        · exact False.elim h1
        · exact False.elim h1
        · exact False.elim h2
        · refine ⟨h1.1.trans h2.1, ?_, ih b c h1.2.2 h2.2.2⟩
          rcases h1.2.1 with hy | hy
          · rcases h2.2.1 with hz | hz
            · exact Or.inl (hy.trans hz)
            · exact Or.inr (hy.trans hz)
          · exact Or.inr hy

/-- A chain that starts with an array frame whose type is resolved evolves
only into a chain starting with the identical array frame. -/
theorem FR_array_some (f : Bool) (t : String) (c y : List Frame)
    (h : FR (.array f (some t) :: c) y) :
    ∃ c', y = .array f (some t) :: c' ∧ FR c c' := by
  rcases y with _ | ⟨⟨k2, f2, te2⟩ | ⟨f2, ty2⟩, y⟩
  · exact False.elim h
  · exact False.elim h
  · obtain ⟨hf, hty, hfr⟩ := h
    rcases hty with hty | hty
    · exact ⟨y, by rw [hf, hty], hfr⟩
    · exact absurd hty (by simp)

/-- A chain that starts with a table frame evolves only into a chain
starting with a table frame of the same key. -/
theorem FR_table (k : String) (f te : Bool) (c y : List Frame)
    (h : FR (.table k f te :: c) y) :
    ∃ f' te' c', y = .table k f' te' :: c' ∧ FR c c' := by
  rcases y with _ | ⟨⟨k2, f2, te2⟩ | ⟨f2, ty2⟩, y⟩
  · exact False.elim h
  · exact ⟨f2, te2, y, by rw [h.1], h.2⟩
  · exact False.elim h

/-- The `array_type` check evolves the chain per `FR` (it at most fills in
the head array frame's type). -/
theorem fr_arrayType (t : String) (st st' : List Frame)
    (h : arrayType t st = .ok st') : FR st st' := by
  rcases st with _ | ⟨⟨k, f, te⟩ | ⟨f, ty⟩, p⟩
  · simp only [arrayType] at h
    cases h
    exact FR_refl _
  · simp only [arrayType] at h
    cases h
    exact FR_refl _
  · rcases ty with _ | prev
    · simp only [arrayType] at h
      cases h
      exact ⟨rfl, Or.inr rfl, FR_refl p⟩
    · simp only [arrayType] at h
      by_cases hpt : prev ≠ t
      · rw [if_pos hpt] at h
        cases h
      · rw [if_neg hpt] at h
        cases h
        exact FR_refl _

/-- `emit_key_part` evolves the chain per `FR` (it only sets table
`table_emitted` flags). -/
theorem fr_emitKeyPart : ∀ (st : List Frame) (dst : String), FR st (emitKeyPart st dst).1
  | [], _ => trivial
  | .array f ty :: p, dst => by
    have ih := fr_emitKeyPart p dst
    rcases h : emitKeyPart p dst with ⟨p', d', fst⟩
    rw [h] at ih
    simp only [emitKeyPart, h]
    exact ⟨rfl, Or.inl rfl, ih⟩
  | .table k f te :: p, dst => by
    have ih := fr_emitKeyPart p dst
    rcases h : emitKeyPart p dst with ⟨p', d', fst⟩
    rw [h] at ih
    simp only [emitKeyPart, h]
    exact ⟨rfl, ih⟩

/-- `emit_table_header` evolves the chain per `FR` (its chain effect is
that of `emit_key_part`). -/
theorem fr_emitTableHeader (st : List Frame) (dst : String) :
    FR st (emitTableHeader st dst).1 := by
  have key : ∀ (st2 : List Frame) (d : String) (res : List Frame × String × Bool),
      emitKeyPart st2 d = res → FR st2 res.1 := by
    intro st2 d res h
    have h2 := fr_emitKeyPart st2 d
    rw [h] at h2
    exact h2
  rcases st with _ | ⟨fr, p⟩
  · trivial
  · simp only [emitTableHeader]
    exact key _ _ _ rfl

/-- `emit_key_` evolves the chain per `FR`. -/
theorem fr_emitKeyAux : ∀ (st : List Frame) (dst : String), FR st (emitKeyAux st dst).chain
  | [], _ => trivial
  | .array f ty :: p, dst => by
    rcases ty with _ | t
    · simp only [emitKeyAux]
      simp only [Option.isNone_none, if_true]
      exact ⟨rfl, Or.inl rfl, FR_refl p⟩
    · cases f
      · simp [emitKeyAux]
        exact ⟨rfl, Or.inl rfl, FR_refl p⟩
      · have ih := fr_emitKeyAux p dst
        rcases h : emitKeyAux p dst with ⟨p', d', e⟩
        rw [h] at ih
        rcases e with _ | e <;>
          · simp [emitKeyAux, h]
            exact ⟨rfl, Or.inl rfl, ih⟩
  | .table k f te :: p, dst => by
    cases te
    · cases f
      · simp [emitKeyAux]
        exact ⟨rfl, FR_refl p⟩
      · have ih := fr_emitTableHeader p dst
        rcases h : emitTableHeader p dst with ⟨p', d'⟩
        rw [h] at ih
        simp [emitKeyAux, h]
        exact ⟨rfl, ih⟩
    · simp [emitKeyAux]
      exact ⟨rfl, FR_refl p⟩

/-- The chain of a `display` call is the chain of its `emit_key` call (the
token write and the line terminator touch only the buffer). -/
theorem display_chain (tok t : String) (st : List Frame) (dst : String) :
    (display tok t st dst).chain = (emitKey t st dst).chain := by
  rcases h : emitKey t st dst with ⟨st', d', e⟩
  rcases e with _ | e <;> simp [display, h]

/-- `emit_key` evolves the chain per `FR`. -/
theorem fr_emitKey (t : String) (st : List Frame) (dst : String) :
    FR st (emitKey t st dst).chain := by
  rcases h : arrayType t st with e | st'
  · simp only [emitKey, h]
    exact FR_refl _
  · simp only [emitKey, h]
    exact FR_trans _ _ _ (fr_arrayType t st st' h) (fr_emitKeyAux st' dst)

/-- `SerializeSeq::end` evolves the chain per `FR`. -/
theorem fr_seqEnd (f : Bool) (ty : Option String) (st : List Frame) (dst : String) :
    FR st (seqEnd f ty st dst).chain := by
  rcases ty with _ | t
  · cases f
    · simp [seqEnd]
      exact FR_refl _
    · have hk := fr_emitKey "array" st dst
      rcases h : emitKey "array" st dst with ⟨st', d', e⟩
      rw [h] at hk
      rcases e with _ | e <;>
        · simp [seqEnd, h]
          exact hk
  · by_cases ht : t = "table" <;> simp [seqEnd, ht] <;> exact FR_refl _

/-- `DateStrEmitter` evolves the chain per `FR`. -/
theorem fr_dateStrEmit (v : SValue) (st : List Frame) (dst : String) :
    FR st (dateStrEmit v st dst).chain := by
  cases v with
  | SStr s =>
    simp only [dateStrEmit]
    rw [display_chain]
    exact fr_emitKey _ _ _
  | SBool b => exact FR_refl st
  | SInt n => exact FR_refl st
  | SFloat fl => exact FR_refl st
  | SNone => exact FR_refl st
  | SSeq es => exact FR_refl st
  | SMap fs => exact FR_refl st
  | SStruct n fs => exact FR_refl st

mutual

/-- The engine evolves the chain per `FR`: serializing any shape preserves
the chain's shape and keys, preserves array frames below the head, and at
most fills in the head array frame's resolved type. -/
theorem fr_serialize : ∀ (v : SValue) (st : List Frame) (dst : String),
    FR st (serialize v st dst).chain
  | .SBool b, st, dst => by
    have h : serialize (.SBool b) st dst =
        display (if b then "true" else "false") "bool" st dst := rfl
    rw [h, display_chain]
    exact fr_emitKey _ _ _
  | .SInt n, st, dst => by
    have h : serialize (.SInt n) st dst = display (toString n) "integer" st dst := rfl
    rw [h, display_chain]
    exact fr_emitKey _ _ _
  | .SFloat fl, st, dst => by
    have hk := fr_emitKey "float" st dst
    rcases h : emitKey "float" st dst with ⟨st', d', e⟩
    rw [h] at hk
    rcases e with _ | e <;>
      · simp only [serialize, h]
        exact hk
  | .SStr s, st, dst => by
    have hk := fr_emitKey "string" st dst
    rcases h : emitKey "string" st dst with ⟨st', d', e⟩
    rw [h] at hk
    rcases e with _ | e <;>
      · simp only [serialize, h]
        exact hk
  | .SNone, st, dst => by
    simp only [serialize]
    exact FR_refl st
  | .SSeq es, st, dst => by
    rcases h : arrayType "array" st with e | st'
    · simp only [serialize, h]
      exact FR_refl st
    · have h1 := fr_arrayType _ _ _ h
      have h2 := fr_seqElems es true none st' dst
      rcases hr : serSeqElems es true none st' dst with ⟨f', ty', c', b', e'⟩
      rw [hr] at h2
      rcases e' with _ | e'
      · simp only [serialize, h, hr]
        exact FR_trans _ _ _ h1 (FR_trans _ _ _ h2 (fr_seqEnd f' ty' c' b'))
      · simp only [serialize, h, hr]
        exact FR_trans _ _ _ h1 h2
  | .SMap fs, st, dst => by
    rcases h : arrayType "table" st with e | st'
    · simp only [serialize, h]
      exact FR_refl st
    · have h1 := fr_arrayType _ _ _ h
      have h2 := fr_mapFields fs true false st' dst
      rcases hr : serMapFields fs true false st' dst with ⟨f', te', c', b', e'⟩
      rw [hr] at h2
      rcases e' with _ | e'
      · cases f'
        · simp only [serialize, h, hr]
          exact FR_trans _ _ _ h1 h2
        · have h3 := fr_emitTableHeader c' b'
          rcases hh : emitTableHeader c' b' with ⟨c'', b''⟩
          rw [hh] at h3
          simp only [serialize, h, hr, hh]
          exact FR_trans _ _ _ h1 (FR_trans _ _ _ h2 h3)
      · simp only [serialize, h, hr]
        exact FR_trans _ _ _ h1 h2
  | .SStruct name fs, st, dst => by
    by_cases hn : name = SERDE_STRUCT_NAME
    · rcases h : arrayType "datetime" st with e | st'
      · simp only [serialize, hn, if_pos rfl, h]
        exact FR_refl st
      · simp only [serialize, hn, if_pos rfl, h]
        exact FR_trans _ _ _ (fr_arrayType _ _ _ h) (fr_dateFields fs st' dst)
    · rcases h : arrayType "table" st with e | st'
      · simp only [serialize, if_neg hn, h]
        exact FR_refl st
      · have h2 := fr_structFields fs true false st' dst
        rcases hr : serStructFields fs true false st' dst with ⟨f', te', c', b', e'⟩
        rw [hr] at h2
        simp only [serialize, if_neg hn, h, hr]
        exact FR_trans _ _ _ (fr_arrayType _ _ _ h) h2

/-- The sequence-element loop evolves the chain below its own frame per
`FR`. -/
theorem fr_seqElems : ∀ (es : SList) (f : Bool) (ty : Option String)
    (st : List Frame) (dst : String), FR st (serSeqElems es f ty st dst).chain
  | .nil, f, ty, st, dst => by
    simp only [serSeqElems]
    exact FR_refl st
  | .cons v tl, f, ty, st, dst => by
    have hfr := fr_serialize v (.array f ty :: st) dst
    rcases hout : serialize v (.array f ty :: st) dst with ⟨ch, b, e⟩
    rw [hout] at hfr
    rcases ch with _ | ⟨⟨k2, f2, te2⟩ | ⟨f2, ty2⟩, ch⟩
    · exact False.elim hfr
    · exact False.elim hfr
    · obtain ⟨hf, hty, htl⟩ := hfr
      rcases e with _ | e
      · have ih := fr_seqElems tl false ty2 ch b
        simp only [serSeqElems, hout]
        exact FR_trans _ _ _ htl ih
      · simp only [serSeqElems, hout]
        exact htl

/-- The map-field loop evolves the chain below its own frame per `FR`. -/
theorem fr_mapFields : ∀ (fs : SFields) (f te : Bool)
    (st : List Frame) (dst : String), FR st (serMapFields fs f te st dst).chain
  | .nil, f, te, st, dst => by
    simp only [serMapFields]
    exact FR_refl st
  | .cons k v tl, f, te, st, dst => by
    by_cases hc : k.data.contains '\n' = true
    · simp only [serMapFields, if_pos hc]
      exact FR_refl st
    · have hfr := fr_serialize v (.table k f te :: st) dst
      rcases hout : serialize v (.table k f te :: st) dst with ⟨ch, b, e⟩
      rw [hout] at hfr
      rcases ch with _ | ⟨⟨k2, f2, te2⟩ | ⟨f2, ty2⟩, ch⟩
      · exact False.elim hfr
      · obtain ⟨hk2, htl⟩ := hfr
        rcases e with _ | e
        · have ih := fr_mapFields tl false te2 ch b
          simp only [serMapFields, if_neg hc, hout]
          exact FR_trans _ _ _ htl ih
        · cases e with
          | UnsupportedNone =>
            have ih := fr_mapFields tl f2 te2 ch b
            simp only [serMapFields, if_neg hc, hout]
            exact FR_trans _ _ _ htl ih
          | UnsupportedType =>
            simp only [serMapFields, if_neg hc, hout]
            exact htl
          | KeyNotString =>
            simp only [serMapFields, if_neg hc, hout]
            exact htl
          | KeyNewline =>
            simp only [serMapFields, if_neg hc, hout]
            exact htl
          | ArrayMixedType =>
            simp only [serMapFields, if_neg hc, hout]
            exact htl
          | ValueAfterTable =>
            simp only [serMapFields, if_neg hc, hout]
            exact htl
          | DateInvalid =>
            simp only [serMapFields, if_neg hc, hout]
            exact htl
          | Custom msg =>
            simp only [serMapFields, if_neg hc, hout]
            exact htl
          | Panic =>
            simp only [serMapFields, if_neg hc, hout]
            exact htl
      · exact False.elim hfr

/-- The struct-field loop evolves the chain below its own frame per `FR`. -/
theorem fr_structFields : ∀ (fs : SFields) (f te : Bool)
    (st : List Frame) (dst : String), FR st (serStructFields fs f te st dst).chain
  | .nil, f, te, st, dst => by
    simp only [serStructFields]
    exact FR_refl st
  | .cons k v tl, f, te, st, dst => by
    have hfr := fr_serialize v (.table k f te :: st) dst
    rcases hout : serialize v (.table k f te :: st) dst with ⟨ch, b, e⟩
    rw [hout] at hfr
    rcases ch with _ | ⟨⟨k2, f2, te2⟩ | ⟨f2, ty2⟩, ch⟩
    · exact False.elim hfr
    · obtain ⟨hk2, htl⟩ := hfr
      rcases e with _ | e
      · have ih := fr_structFields tl false te2 ch b
        simp only [serStructFields, hout]
        exact FR_trans _ _ _ htl ih
      · cases e with
        | UnsupportedNone =>
          have ih := fr_structFields tl f2 te2 ch b
          simp only [serStructFields, hout]
          exact FR_trans _ _ _ htl ih
        | UnsupportedType =>
          simp only [serStructFields, hout]
          exact htl
        | KeyNotString =>
          simp only [serStructFields, hout]
          exact htl
        | KeyNewline =>
          simp only [serStructFields, hout]
          exact htl
        | ArrayMixedType =>
          simp only [serStructFields, hout]
          exact htl
        | ValueAfterTable =>
          simp only [serStructFields, hout]
          exact htl
        | DateInvalid =>
          simp only [serStructFields, hout]
          exact htl
        | Custom msg =>
          simp only [serStructFields, hout]
          exact htl
        | Panic =>
          simp only [serStructFields, hout]
          exact htl
    · exact False.elim hfr

/-- The datetime-sentinel field loop evolves the chain per `FR`. -/
theorem fr_dateFields : ∀ (fs : SFields) (st : List Frame) (dst : String),
    FR st (serDateFields fs st dst).chain
  | .nil, st, dst => by
    simp only [serDateFields]
    exact FR_refl st
  | .cons k v tl, st, dst => by
    by_cases hk : k = SERDE_STRUCT_FIELD_NAME
    · have hd := fr_dateStrEmit v st dst
      rcases h : dateStrEmit v st dst with ⟨st', d', e⟩
      rw [h] at hd
      rcases e with _ | e
      · have ih := fr_dateFields tl st' d'
        simp only [serDateFields, if_pos hk, h]
        exact FR_trans _ _ _ hd ih
      · simp only [serDateFields, if_pos hk, h]
        exact hd
    · simp only [serDateFields, if_neg hk]
      exact FR_refl st

end

/-- A shape whose announced type tag differs from the already-resolved
element type of the enclosing array fails immediately with
ArrayMixedType, leaving the chain and buffer untouched: every shape's
serialization starts with the `array_type` check. -/
theorem tag_mismatch_immediate (v : SValue) (tv t : String) (f : Bool)
    (c : List Frame) (dst : String) (hv : tagOf v = some tv) (hne : tv ≠ t) :
    serialize v (.array f (some t) :: c) dst =
      ⟨.array f (some t) :: c, dst, some .ArrayMixedType⟩ := by
  cases v with
  | SBool b =>
    simp only [tagOf, Option.some_inj] at hv
    subst hv
    simp [serialize, display, emitKey, arrayType, (Ne.symm hne)]
  | SInt n =>
    simp only [tagOf, Option.some_inj] at hv
    subst hv
    simp [serialize, display, emitKey, arrayType, (Ne.symm hne)]
  | SFloat fl =>
    simp only [tagOf, Option.some_inj] at hv
    subst hv
    simp [serialize, display, emitKey, arrayType, (Ne.symm hne)]
  | SStr s =>
    simp only [tagOf, Option.some_inj] at hv
    subst hv
    simp [serialize, display, emitKey, arrayType, (Ne.symm hne)]
  | SNone => simp [tagOf] at hv
  | SSeq es =>
    simp only [tagOf, Option.some_inj] at hv
    subst hv
    simp [serialize, arrayType, (Ne.symm hne)]
  | SMap fs =>
    simp only [tagOf, Option.some_inj] at hv
    subst hv
    simp [serialize, arrayType, (Ne.symm hne)]
  | SStruct name fs =>
    simp only [tagOf, Option.some_inj] at hv
    subst hv
    by_cases hn : name = SERDE_STRUCT_NAME
    · rw [hn, if_pos rfl] at hne
      simp [serialize, arrayType, hn, (Ne.symm hne)]
    · rw [if_neg hn] at hne
      simp [serialize, arrayType, hn, (Ne.symm hne)]

/-- `emit_key_` keeps an array head frame exactly. -/
theorem emitKeyAux_array_head (f : Bool) (ty : Option String) (p : List Frame)
    (dst : String) :
    ∃ p', (emitKeyAux (.array f ty :: p) dst).chain = .array f ty :: p' := by
  rcases ty with _ | t
  · exact ⟨p, rfl⟩
  · cases f
    · exact ⟨p, rfl⟩
    · rcases h : emitKeyAux p dst with ⟨p', d', e⟩
      rcases e with _ | e
      · exact ⟨p', by simp [emitKeyAux, h]⟩
      · exact ⟨p', by simp [emitKeyAux, h]⟩

/-- The chain of a float serialization is the chain of its `emit_key`. -/
theorem serialize_float_chain (fl : F64) (st : List Frame) (dst : String) :
    (serialize (.SFloat fl) st dst).chain = (emitKey "float" st dst).chain := by
  rcases h : emitKey "float" st dst with ⟨st', d', e⟩
  rcases e with _ | e <;> simp [serialize, h]

/-- The chain of a string serialization is the chain of its `emit_key`. -/
theorem serialize_str_chain (s : String) (st : List Frame) (dst : String) :
    (serialize (.SStr s) st dst).chain = (emitKey "string" st dst).chain := by
  rcases h : emitKey "string" st dst with ⟨st', d', e⟩
  rcases e with _ | e <;> simp [serialize, h]

/-- `SerializeSeq::end` keeps an `array`-typed array head frame. -/
theorem seqEnd_array_head (fl : Bool) (ty0 : Option String) (f : Bool)
    (c : List Frame) (dst : String) :
    ∃ c', (seqEnd fl ty0 (.array f (some "array") :: c) dst).chain =
      .array f (some "array") :: c' := by
  rcases ty0 with _ | t
  · cases fl
    · exact ⟨c, rfl⟩
    · have ha : arrayType "array" (.array f (some "array") :: c) =
          .ok (.array f (some "array") :: c) := by simp [arrayType]
      obtain ⟨p', hp⟩ := emitKeyAux_array_head f (some "array") c dst
      rcases hE : emitKeyAux (.array f (some "array") :: c) dst with ⟨ch, d', e⟩
      rw [hE] at hp
      rcases e with _ | e
      · exact ⟨p', by simp [seqEnd, emitKey, ha, hE]; exact hp⟩
      · exact ⟨p', by simp [seqEnd, emitKey, ha, hE]; exact hp⟩
  · by_cases ht : t = "table" <;> exact ⟨c, by simp [seqEnd, ht]⟩

/-- Serializing a tagged shape under an array frame with an unresolved
type resolves that frame's type to the shape's tag (and the frame is
never unfilled or changed afterwards). -/
theorem serialize_array_head_none (v : SValue) (tv : String) (f : Bool)
    (c : List Frame) (dst : String) (hv : tagOf v = some tv) :
    ∃ c', (serialize v (.array f none :: c) dst).chain = .array f (some tv) :: c' := by
  cases v with
  | SBool b =>
    simp only [tagOf, Option.some_inj] at hv
    subst hv
    have hchain : (serialize (.SBool b) (.array f none :: c) dst).chain =
        (emitKey "bool" (.array f none :: c) dst).chain := by
      have h : serialize (.SBool b) (.array f none :: c) dst =
          display (if b then "true" else "false") "bool" (.array f none :: c) dst := rfl
      rw [h, display_chain]
    rw [hchain]
    have ha : arrayType "bool" (.array f none :: c) = .ok (.array f (some "bool") :: c) := by
      simp [arrayType]
    obtain ⟨p', hp⟩ := emitKeyAux_array_head f (some "bool") c dst
    exact ⟨p', by simp only [emitKey, ha]; exact hp⟩
  | SInt n =>
    simp only [tagOf, Option.some_inj] at hv
    subst hv
    have hchain : (serialize (.SInt n) (.array f none :: c) dst).chain =
        (emitKey "integer" (.array f none :: c) dst).chain := by
      have h : serialize (.SInt n) (.array f none :: c) dst =
          display (toString n) "integer" (.array f none :: c) dst := rfl
      rw [h, display_chain]
    rw [hchain]
    have ha : arrayType "integer" (.array f none :: c) =
        .ok (.array f (some "integer") :: c) := by simp [arrayType]
    obtain ⟨p', hp⟩ := emitKeyAux_array_head f (some "integer") c dst
    exact ⟨p', by simp only [emitKey, ha]; exact hp⟩
  | SFloat fl =>
    simp only [tagOf, Option.some_inj] at hv
    subst hv
    rw [serialize_float_chain]
    have ha : arrayType "float" (.array f none :: c) = .ok (.array f (some "float") :: c) := by
      simp [arrayType]
    obtain ⟨p', hp⟩ := emitKeyAux_array_head f (some "float") c dst
    exact ⟨p', by simp only [emitKey, ha]; exact hp⟩
  | SStr s =>
    simp only [tagOf, Option.some_inj] at hv
    subst hv
    rw [serialize_str_chain]
    have ha : arrayType "string" (.array f none :: c) =
        .ok (.array f (some "string") :: c) := by simp [arrayType]
    obtain ⟨p', hp⟩ := emitKeyAux_array_head f (some "string") c dst
    exact ⟨p', by simp only [emitKey, ha]; exact hp⟩
  | SNone => exact absurd hv (by simp [tagOf])
  | SSeq es =>
    simp only [tagOf, Option.some_inj] at hv
    subst hv
    have ha : arrayType "array" (.array f none :: c) = .ok (.array f (some "array") :: c) := by
      simp [arrayType]
    have h2 := fr_seqElems es true none (.array f (some "array") :: c) dst
    rcases hr : serSeqElems es true none (.array f (some "array") :: c) dst with
      ⟨f', ty', c'', b', e'⟩
    rw [hr] at h2
    have h2' : FR (.array f (some "array") :: c) c'' := h2
    obtain ⟨cc, hcc, _⟩ := FR_array_some f "array" c c'' h2'
    subst hcc
    rcases e' with _ | e'
    · obtain ⟨c3, hc3⟩ := seqEnd_array_head f' ty' f cc b'
      refine ⟨c3, ?_⟩
      simp only [serialize, ha, hr]
      exact hc3
    · exact ⟨cc, by simp only [serialize, ha, hr]⟩
  | SMap fs =>
    simp only [tagOf, Option.some_inj] at hv
    subst hv
    have ha : arrayType "table" (.array f none :: c) = .ok (.array f (some "table") :: c) := by
      simp [arrayType]
    have h2 := fr_mapFields fs true false (.array f (some "table") :: c) dst
    rcases hr : serMapFields fs true false (.array f (some "table") :: c) dst with
      ⟨f', te', c'', b', e'⟩
    rw [hr] at h2
    have h2' : FR (.array f (some "table") :: c) c'' := h2
    obtain ⟨cc, hcc, _⟩ := FR_array_some f "table" c c'' h2'
    subst hcc
    rcases e' with _ | e'
    · cases f'
      · exact ⟨cc, by simp [serialize, ha, hr]⟩
      · have h3 := fr_emitTableHeader (.array f (some "table") :: cc) b'
        rcases hh : emitTableHeader (.array f (some "table") :: cc) b' with ⟨c4, b4⟩
        rw [hh] at h3
        obtain ⟨c3, hc3, _⟩ := FR_array_some f "table" cc c4 h3
        refine ⟨c3, ?_⟩
        simp only [serialize, ha, hr, hh]
        exact hc3
    · exact ⟨cc, by simp only [serialize, ha, hr]⟩
  | SStruct name fs =>
    simp only [tagOf, Option.some_inj] at hv
    subst hv
    by_cases hn : name = SERDE_STRUCT_NAME
    · rw [if_pos hn]
      have ha : arrayType "datetime" (.array f none :: c) =
          .ok (.array f (some "datetime") :: c) := by simp [arrayType]
      have h2 := fr_dateFields fs (.array f (some "datetime") :: c) dst
      rcases hr : serDateFields fs (.array f (some "datetime") :: c) dst with ⟨c'', b', e'⟩
      rw [hr] at h2
      have h2' : FR (.array f (some "datetime") :: c) c'' := h2
      obtain ⟨cc, hcc, _⟩ := FR_array_some f "datetime" c c'' h2'
      subst hcc
      exact ⟨cc, by simp [serialize, hn, ha, hr]⟩
    · rw [if_neg hn]
      have ha : arrayType "table" (.array f none :: c) =
          .ok (.array f (some "table") :: c) := by simp [arrayType]
      have h2 := fr_structFields fs true false (.array f (some "table") :: c) dst
      rcases hr : serStructFields fs true false (.array f (some "table") :: c) dst with
        ⟨f', te', c'', b', e'⟩
      rw [hr] at h2
      have h2' : FR (.array f (some "table") :: c) c'' := h2
      obtain ⟨cc, hcc, _⟩ := FR_array_some f "table" c c'' h2'
      subst hcc
      exact ⟨cc, by simp only [serialize, if_neg hn, ha, hr]⟩

/-- An element that serializes without error under an array frame with a
resolved type has exactly that type as its tag (the `array_type` check at
the start of its serialization would otherwise have failed, and the none
marker never succeeds). -/
theorem tag_of_success (v : SValue) (f : Bool) (t : String) (c : List Frame)
    (dst : String) (h : (serialize v (.array f (some t) :: c) dst).err = none) :
    tagOf v = some t := by
  rcases hv : tagOf v with _ | tv
  · cases v <;> simp [tagOf] at hv
    simp [serialize] at h
  · by_cases he : tv = t
    · rw [he]
    · rw [tag_mismatch_immediate v tv t f c dst hv he] at h
      simp at h

/-- If the element loop runs without error from a resolved type `t`, every
element's tag is `t`. -/
theorem seq_success_tags : ∀ (es : SList) (f : Bool) (t : String)
    (st : List Frame) (dst : String),
    (serSeqElems es f (some t) st dst).err = none →
    ∀ v ∈ es.toList, tagOf v = some t
  | .nil, f, t, st, dst => by
    intro h v hv
    simp [SList.toList] at hv
  | .cons v tl, f, t, st, dst => by
    intro h w hw
    have hfr := fr_serialize v (.array f (some t) :: st) dst
    rcases hout : serialize v (.array f (some t) :: st) dst with ⟨ch, b, e⟩
    rw [hout] at hfr
    have hfr' : FR (.array f (some t) :: st) ch := hfr
    obtain ⟨c', hch, _⟩ := FR_array_some f t st ch hfr'
    subst hch
    rcases e with _ | e
    · have htag : tagOf v = some t := tag_of_success v f t st dst (by rw [hout])
      simp only [serSeqElems, hout] at h
      simp only [SList.toList, List.mem_cons] at hw
      rcases hw with rfl | hw
      · exact htag
      · exact seq_success_tags tl false t c' b h w hw
    · simp only [serSeqElems, hout] at h
      exact absurd h (by simp)

/-- If the element loop runs without error from an unresolved type on a
nonempty list, the first element has a tag and every element shares it. -/
theorem seq_success_tags0 (v : SValue) (tl : SList) (f : Bool)
    (st : List Frame) (dst : String)
    (h : (serSeqElems (.cons v tl) f none st dst).err = none) :
    ∃ t0, tagOf v = some t0 ∧ ∀ w ∈ (SList.cons v tl).toList, tagOf w = some t0 := by
  rcases hv : tagOf v with _ | t0
  · exfalso
    cases v <;> simp [tagOf] at hv
    simp [serSeqElems, serialize] at h
  · obtain ⟨c', hch⟩ := serialize_array_head_none v t0 f st dst hv
    rcases hout : serialize v (.array f none :: st) dst with ⟨ch, b, e⟩
    rw [hout] at hch
    have hch' : ch = .array f (some t0) :: c' := hch
    subst hch'
    rcases e with _ | e
    · simp only [serSeqElems, hout] at h
      refine ⟨t0, rfl, ?_⟩
      intro w hw
      simp only [SList.toList, List.mem_cons] at hw
      rcases hw with rfl | hw
      · exact hv
      · exact seq_success_tags tl false t0 c' b h w hw
    · simp only [serSeqElems, hout] at h
      exact absurd h (by simp)

/-- Splitting the `SerializeSeq` element loop at a list append: the loop
runs the first part and, when it did not fail, continues with the second
part from the resulting cells, chain and buffer. -/
theorem serSeqElems_append : ∀ (xs ys : SList) (f : Bool) (ty : Option String)
    (st : List Frame) (dst : String),
    serSeqElems (xs.append ys) f ty st dst =
      (match serSeqElems xs f ty st dst with
       | ⟨f', ty', st', dst', none⟩ => serSeqElems ys f' ty' st' dst'
       | r => r)
  | .nil, ys, f, ty, st, dst => rfl
  | .cons v tl, ys, f, ty, st, dst => by
    simp only [SList.append, serSeqElems]
    generalize serialize v (.array f ty :: st) dst = out
    rcases out with ⟨ch, b, e⟩
    rcases ch with _ | ⟨⟨fk, ff, fte⟩ | ⟨f', ty'⟩, ch⟩
    · rcases e with _ | e <;> rfl
    · rcases e with _ | e <;> rfl
    · rcases e with _ | e
      · exact serSeqElems_append tl ys false ty' ch b
      · rfl

/-- CLAIM C3 counterexample: the top-level sequence
`Array[Table{"a\nb": Integer(1)}, Integer(2)]` has two elements with
different resolved type tags (`table` and `integer`), yet its
serialization fails with KeyNewline, not ArrayMixedType: the first
element fails before the second element's type check is ever reached. -/
theorem c3_preempting_error :
    to_string (Value.toS (.VArray (.cons (.VTable (.cons "a\nb" (.VInteger 1) .nil))
      (.cons (.VInteger 2) .nil)))) = .error .KeyNewline ∧
    tagOf (Value.toS (.VTable (.cons "a\nb" (.VInteger 1) .nil))) = some "table" ∧
    tagOf (Value.toS (.VInteger 2)) = some "integer" ∧
    ("table" : String) ≠ "integer" ∧
    Err.KeyNewline ≠ Err.ArrayMixedType := by
  refine ⟨by decide, by decide, by decide, by decide, by decide⟩

/-- CLAIM C3 (status corrected): a top-level sequence two of whose
elements have different resolved type tags always fails; the error is
ArrayMixedType whenever the elements before some position serialize
without error resolving the element type to `t0` and the element at that
position has a tag other than `t0`; and the empty sequence serializes as
the text `[]`. -/
theorem c3_mixed_type_failure :
    (∀ es : SList,
      (∃ u ∈ es.toList, ∃ w ∈ es.toList, ∃ tu tw, tagOf u = some tu ∧
        tagOf w = some tw ∧ tu ≠ tw) →
      ∃ e, to_string (.SSeq es) = .error e) ∧
    (∀ (pre post : SList) (bad : SValue) (f' : Bool) (t0 tb : String)
      (c' : List Frame) (s' : String),
      serSeqElems pre true none [] "" = ⟨f', some t0, c', s', none⟩ →
      tagOf bad = some tb → tb ≠ t0 →
      to_string (.SSeq (pre.append (.cons bad post))) = .error .ArrayMixedType) ∧
    to_string (.SSeq .nil) = .ok "[]" := by
  refine ⟨?_, ?_, by decide⟩
  · rintro es ⟨u, hu, w, hw, tu, tw, htu, htw, hne⟩
    rcases hr : serSeqElems es true none [] "" with ⟨f', ty', c', b', e'⟩
    rcases e' with _ | e'
    · exfalso
      rcases es with _ | ⟨v, tl⟩
      · simp [SList.toList] at hu
      · obtain ⟨t0, _, hall⟩ := seq_success_tags0 v tl true [] "" (by rw [hr])
        have h1 := hall u hu
        have h2 := hall w hw
        rw [htu] at h1
        rw [htw] at h2
        injection h1 with h1
        injection h2 with h2
        exact hne (h1.trans h2.symm)
    · refine ⟨e', ?_⟩
      simp [to_string, serialize, arrayType, hr]
  · intro pre post bad f' t0 tb c' s' hpre hbad hne
    have happ := serSeqElems_append pre (.cons bad post) true none [] ""
    rw [hpre] at happ
    have hloop : serSeqElems (.cons bad post) f' (some t0) c' s' =
        ⟨f', some t0, c', s', some .ArrayMixedType⟩ := by
      simp [serSeqElems, tag_mismatch_immediate bad tb t0 f' c' s' hbad hne]
    simp only [] at happ
    rw [hloop] at happ
    simp [to_string, serialize, arrayType, happ]

/-- CLAIM C3 witness: the sequence `[Integer(1), String("a")]` at the
root: the prefix `[Integer(1)]` serializes cleanly, resolving the type to
`integer`, and the string element then fails with ArrayMixedType. -/
theorem c3_mixed_type_failure_witness :
    to_string (.SSeq (.cons (.SInt 1) (.cons (.SStr "a") .nil))) =
      .error .ArrayMixedType := by
  have h := c3_mixed_type_failure.2.1 (.cons (.SInt 1) .nil) .nil (.SStr "a")
    false "integer" "string" [] "[1" (by decide) (by decide) (by decide)
  simpa [SList.append] using h

end Toml
